import Mathlib

set_option maxRecDepth 8000

/-!
Verification of the talk-to-file matching and filename-generation engine of the
PyBay video publishing helpers (src/file_renamer.py and
src/pyvideo_converter.py).

Python strings are modelled as lists of characters (`Str`), ASCII-faithfully:
`str.lower`, `str.strip`, the concrete regular-expression searches of the code
and the pathlib suffix split are embedded as executable Lean functions over
`Str`, mirroring the Python regular-expression engine semantics (leftmost match,
ordered alternation, greedy and lazy quantifiers) for the exact patterns
appearing in the source.
-/

namespace PyBayVideo

/-- Python strings, modelled as lists of characters. -/
abbrev Str := List Char

/-- Python whitespace (the characters matched by `\s` and stripped by
`str.strip`), ASCII fragment: space, tab, newline, carriage return, vertical
tab, form feed. -/
def pyIsSpace (c : Char) : Bool :=
  c == ' ' || c == '\t' || c == '\n' || c == '\r' || c.toNat == 11 || c.toNat == 12

/-- Characters matched by the regular-expression class `\w`, ASCII fragment:
letters, digits and the underscore. -/
def pyIsWord (c : Char) : Bool :=
  c.isAlphanum || c == '_'

/-- Python `str.lower`, ASCII fragment. -/
def lowerStr (s : Str) : Str := s.map Char.toLower

/-- Python `str.strip` with no argument: drop whitespace from both ends. -/
def strip (s : Str) : Str :=
  ((s.dropWhile pyIsSpace).reverse.dropWhile pyIsSpace).reverse

/-- Python substring containment `needle in hay`. -/
def strContains (hay needle : Str) : Bool :=
  match hay with
  | [] => needle.isPrefixOf []
  | _ :: t => needle.isPrefixOf hay || strContains t needle

/-- Python `int` on a string of decimal digit characters. -/
def natOfDigits (ds : Str) : Nat :=
  ds.foldl (fun n c => 10 * n + (c.toNat - 48)) 0

/-- Python `str(n)` for a natural number: decimal digit characters. -/
def natRepr (n : Nat) : Str := Nat.toDigits 10 n

/-- Python `f"{n:02d}"`: decimal digits, zero padded on the left to width two. -/
def pad2 (n : Nat) : Str := if n < 10 then '0' :: natRepr n else natRepr n

/-- Length of the run of whitespace characters at the head of `s`. -/
def wsRun (s : Str) : Nat := (s.takeWhile pyIsSpace).length

/-- Drop the whitespace run at the head of `s`. This is how a greedy `\s*`
followed by a non-whitespace literal consumes input: backtracking into the run
would leave a whitespace character where the non-whitespace literal must
match, so only the full run can succeed. -/
def skipWs (s : Str) : Str := s.dropWhile pyIsSpace

/-- The numbers `n, n-1, ..., 0`: the order in which a greedy bounded
quantifier tries how much input to consume. -/
def descRange (n : Nat) : List Nat := (List.range (n + 1)).reverse

/-- Case-insensitive literal test at the head of `s`, modelling a literal under
`re.IGNORECASE`. -/
def ciPrefix (lit s : Str) : Bool :=
  decide (lit.length ≤ s.length) && lowerStr (s.take lit.length) == lowerStr lit

/-- Detected 12-hour marker of normalize_time_to_24h: `none` when neither `am`
nor `pm` occurs in the lowercased input, otherwise `some isPm`
(file_renamer.py line 78, which checks for `am` first). -/
def amPmOf (s : Str) : Option Bool :=
  if strContains (lowerStr s) ("am".toList) then some false
  else if strContains (lowerStr s) ("pm".toList) then some true
  else none

/-- The hour and minute parsed from the extracted digit string by
normalize_time_to_24h (lines 80-117); `hasColon` is whether the original input
contained a colon. -/
def parseHourMinute (digits : Str) (hasColon : Bool) : Nat × Nat :=
  if digits.length = 4 then
    (natOfDigits (digits.take 2), natOfDigits (digits.drop 2))
  else if digits.length = 3 then
    if hasColon then
      (natOfDigits (digits.take 1), natOfDigits (digits.drop 1))
    else
      -- the source distinguishes a first digit of 0-2 from larger ones here
      -- (lines 97-105), but both branches parse identically
      if natOfDigits (digits.take 1) ≤ 2 then
        (natOfDigits (digits.take 1), natOfDigits (digits.drop 1))
      else
        (natOfDigits (digits.take 1), natOfDigits (digits.drop 1))
  else if digits.length = 2 then (natOfDigits digits, 0)
  else if digits.length = 1 then (natOfDigits digits, 0)
  else (natOfDigits (digits.take 2), 0)

/-- The 12-to-24-hour adjustment of normalize_time_to_24h (lines 119-124): add
12 for a pm marker unless the hour is 12; map hour 12 with an am marker
to 0. -/
def adjustHour (am_pm : Option Bool) (hour : Nat) : Nat :=
  match am_pm with
  | some true => if hour ≠ 12 then hour + 12 else hour
  | some false => if hour = 12 then 0 else hour
  | none => hour

/-- file_renamer.normalize_time_to_24h (lines 61-126): convert a free-form time
string to a zero-padded 24-hour `HHMM` key; empty result when the input has no
digit. -/
def normalize_time_to_24h (time_str : Str) : Str :=
  let digits := time_str.filter Char.isDigit
  if digits.isEmpty then []
  else
    let hm := parseHourMinute digits (time_str.contains ':')
    pad2 (adjustHour (amPmOf time_str) hm.1) ++ pad2 hm.2

/-- Word-boundary test `\b` between an optional preceding character and the
first character of a match. -/
def boundaryBefore (prev : Option Char) (first : Char) : Bool :=
  match prev with
  | none => pyIsWord first
  | some p => pyIsWord p != pyIsWord first

/-- Word-boundary test `\b` between the last consumed character and the rest of
the input. -/
def boundaryAfter (last : Char) (rest : Str) : Bool :=
  match rest.head? with
  | none => pyIsWord last
  | some b => pyIsWord last != pyIsWord b

/-- Options for `\d{1,2}` in Python backtracking order (greedy: two digits
first). Each option is the consumed part paired with the remaining input. -/
def optsD12 (s : Str) : List (Str × Str) :=
  (if (s.take 2).length = 2 && (s.take 2).all Char.isDigit then
    [(s.take 2, s.drop 2)] else []) ++
  (if (s.take 1).length = 1 && (s.take 1).all Char.isDigit then
    [(s.take 1, s.drop 1)] else [])

/-- Options for `:?` (greedy: the colon is consumed first when present). -/
def optsColon (s : Str) : List (Str × Str) :=
  (if s.head? == some ':' then [([':'], s.drop 1)] else []) ++ [([], s)]

/-- Options for `\d{0,2}` in Python backtracking order. -/
def optsD02 (s : Str) : List (Str × Str) :=
  (if (s.take 2).length = 2 && (s.take 2).all Char.isDigit then
    [(s.take 2, s.drop 2)] else []) ++
  (if (s.take 1).length = 1 && (s.take 1).all Char.isDigit then
    [(s.take 1, s.drop 1)] else []) ++
  [([], s)]

/-- Options for `\s?` (greedy: consume first). -/
def optsWs01 (s : Str) : List (Str × Str) :=
  (match s with
   | c :: rest => if pyIsSpace c then [([c], rest)] else []
   | [] => []) ++ [([], s)]

/-- Options for the trailing `(?:am|pm|AM|PM|Am|Pm|aM|pM)?` of the time
pattern: under `re.IGNORECASE` the eight alternatives reduce, in order, to a
case-insensitive `am`, then a case-insensitive `pm`, then the empty option. -/
def optsAmPm (s : Str) : List (Str × Str) :=
  (if ciPrefix ("am".toList) s then [(s.take 2, s.drop 2)] else []) ++
  (if ciPrefix ("pm".toList) s then [(s.take 2, s.drop 2)] else []) ++
  [([], s)]

/-- Attempt the body of the time pattern
`\d{1,2}:?\d{0,2}\s?(?:am|pm|AM|PM|Am|Pm|aM|pM)?\b` at the head of `s`
(file_renamer.py line 167), trying choices in Python backtracking order;
returns the matched group. -/
def timeAtHead (s : Str) : Option Str :=
  (optsD12 s).findSome? fun p1 =>
  (optsColon p1.2).findSome? fun p2 =>
  (optsD02 p2.2).findSome? fun p3 =>
  (optsWs01 p3.2).findSome? fun p4 =>
  (optsAmPm p4.2).findSome? fun p5 =>
    let tok := p1.1 ++ p2.1 ++ p3.1 ++ p4.1 ++ p5.1
    match tok.getLast? with
    | some last => if boundaryAfter last p5.2 then some tok else none
    | none => none

/-- re.search for the time pattern: scan start positions left to right; the
pattern begins with `\b` followed by a digit. -/
def timeSearchAux (prev : Option Char) : Str → Option Str
  | [] => none
  | c :: rest =>
    match (if boundaryBefore prev c then timeAtHead (c :: rest) else none) with
    | some tok => some tok
    | none => timeSearchAux (some c) rest

def timeSearch (s : Str) : Option Str := timeSearchAux none s

/-- re.match for `^([^-]+?)\s*-` (file_renamer.py line 171): the lazy group
grows one character at a time and can never contain a hyphen; after each growth
step a greedy `\s*` followed by a literal hyphen is tried. `accRev` holds the
group collected so far, reversed. -/
def roomScan (accRev : Str) : Str → Option Str
  | [] => none
  | c :: rest =>
    if c = '-' then none
    else if (skipWs rest).head? == some '-' then some (c :: accRev).reverse
    else roomScan (c :: accRev) rest

/-- The room token: the anchored match above, stripped (line 172). -/
def roomTok (s : Str) : Option Str := (roomScan [] s).map strip

/-- Test for `\s+-\s+` at the head of `r`: at least one whitespace, a hyphen,
at least one whitespace. The greedy `\s+` can only place the hyphen at the end
of the whitespace run, since the hyphen is not whitespace. -/
def sepSpacedHyphen (r : Str) : Bool :=
  decide (1 ≤ wsRun r) &&
    (match skipWs r with
     | '-' :: r2 =>
       (match r2.head? with
        | some c => pyIsSpace c
        | none => false)
     | _ => false)

/-- The lazy group of `(.+?)\s+-\s+`: grow the capture one non-newline
character at a time, testing the separator after each step. -/
def lazyCapSpacedHyphen (accRev : Str) : Str → Option Str
  | [] => none
  | c :: rest =>
    if c = '\n' then none
    else if sepSpacedHyphen rest then some (c :: accRev).reverse
    else lazyCapSpacedHyphen (c :: accRev) rest

/-- The tail `\s*(.+?)\s+-\s+` of the surname pattern: greedy `\s*` tries the
longest whitespace consumption first, then the lazy capture grows. -/
def lastnameTail (s : Str) : Option Str :=
  (descRange (wsRun s)).findSome? fun j => lazyCapSpacedHyphen [] (s.drop j)

/-- Attempt `\b{tok}\b\s*-\s*(.+?)\s+-\s+` at the head of `s`, `prev` being the
character just before (file_renamer.py line 181; `tok` is the previously
extracted time token, interpolated into the pattern as a literal). -/
def lastnameAt (tok : Str) (prev : Option Char) (s : Str) : Option Str :=
  match tok.head?, tok.getLast? with
  | some first, some last =>
    if tok.isPrefixOf s && boundaryBefore prev first &&
        boundaryAfter last (s.drop tok.length) then
      match skipWs (s.drop tok.length) with
      | '-' :: r => lastnameTail r
      | _ => none
    else none
  | _, _ => none

/-- re.search for the surname pattern: scan start positions left to right. -/
def lastnameSearchAux (tok : Str) (prev : Option Char) : Str → Option Str
  | [] => none
  | c :: rest =>
    match lastnameAt tok prev (c :: rest) with
    | some cap => some cap
    | none => lastnameSearchAux tok (some c) rest

def lastnameSearch (tok : Str) (s : Str) : Option Str := lastnameSearchAux tok none s

/-- pathlib `Path(name).stem` paired with `Path(name).suffix` without its
leading dot: split at the last dot when that dot is neither leading nor
trailing. -/
def splitName (name : Str) : Str × Str :=
  match name.reverse.findIdx? (· == '.') with
  | some j =>
    let i := name.length - 1 - j
    if 0 < i ∧ i < name.length - 1 then (name.take i, name.drop (i + 1))
    else (name, [])
  | none => (name, [])

/-- The token record returned by extract_tokens_from_filename. -/
structure Tokens where
  filename : Str
  room : Option Str
  time : Option Str
  lastname : Option Str
  extension : Str
  name_without_ext : Str
deriving DecidableEq

/-- file_renamer.extract_tokens_from_filename (lines 150-193). -/
def extract_tokens_from_filename (filename : Str) : Tokens :=
  let se := splitName filename
  let time_token := timeSearch se.1
  let room_token := roomTok se.1
  let lastname_token :=
    match time_token with
    | some tok => (lastnameSearch tok se.1).map strip
    | none => none
  { filename := filename
    room := room_token
    time := time_token
    lastname := lastname_token
    extension := se.2
    name_without_ext := se.1 }

/-- A speaker record; either field may be empty, and a lastname of `.` is the
sentinel for a missing surname. -/
structure Speaker where
  firstname : Str
  lastname : Str
deriving DecidableEq

/-- A talk record in the speakers-array format of the metadata JSON. The legacy
single firstname/lastname format corresponds to a one-element speaker list:
find_video_for_talk (lines 207-221) builds the same lowercased speaker list
from both shapes. -/
structure Talk where
  room : Str
  start_time : Str
  talk_title : Str
  speakers : List Speaker
deriving DecidableEq

/-- The per-speaker lowercasing of find_video_for_talk (lines 211-221). -/
def speakerLower (sp : Speaker) : Speaker :=
  ⟨lowerStr sp.firstname, lowerStr sp.lastname⟩

/-- One iteration of the name-verification loop (lines 250-265): the lastname
containment check, then, when it fails, the firstname fallback check. `vln` is
the lowercased surname fragment of the video; `sp` is already lowercased. -/
def speakerAgrees (vln : Str) (sp : Speaker) : Bool :=
  (!vln.isEmpty && !sp.lastname.isEmpty && sp.lastname != ['.'] &&
    (strContains vln sp.lastname || strContains sp.lastname vln)) ||
  (!sp.firstname.isEmpty && !vln.isEmpty &&
    (strContains vln sp.firstname || strContains sp.firstname vln))

/-- Room filter (line 231): reject when a non-empty room token differs from the
lowercased talk room. -/
def roomRejects (talkRoom : Str) (tokens : Tokens) : Bool :=
  match tokens.room with
  | some r => !r.isEmpty && lowerStr r != talkRoom
  | none => false

/-- Name verification (lines 242-273): the speaker loop, then the two leniency
overrides (no surname extracted from the video, or no name data on any
speaker). `speakers` is the lowercased speaker list. -/
def nameVerify (speakers : List Speaker) (tokens : Tokens) : Bool :=
  let vln := lowerStr (tokens.lastname.getD [])
  let nm := speakers.any (speakerAgrees vln)
  if vln.isEmpty then true
  else if !(speakers.any fun sp => !sp.firstname.isEmpty || !sp.lastname.isEmpty) then true
  else nm

/-- The body of the candidate loop of find_video_for_talk (lines 223-276):
whether this candidate is accepted for this talk. -/
def acceptsCandidate (talk : Talk) (name : Str) : Bool :=
  let tokens := extract_tokens_from_filename name
  if name.head? == some '_' || strContains name (" — ".toList) then false
  else if roomRejects (lowerStr talk.room) tokens then false
  else
    match tokens.time with
    | none => false
    | some t =>
      if normalize_time_to_24h t != normalize_time_to_24h talk.start_time then false
      else nameVerify (talk.speakers.map speakerLower) tokens

/-- file_renamer.find_video_for_talk (lines 196-278): the candidate loop with
early return is the first accepted candidate in list order. -/
def find_video_for_talk (talk : Talk) (video_files : List Str) : Option Str :=
  video_files.find? (acceptsCandidate talk)

/-- The per-speaker name parts of generate_new_filename (lines 299-304): a
non-empty firstname, then a non-empty lastname unless it is the `.`
sentinel. -/
def namePartsOf (sp : Speaker) : List Str :=
  (if !sp.firstname.isEmpty then [sp.firstname] else []) ++
  (if !sp.lastname.isEmpty && sp.lastname != ['.'] then [sp.lastname] else [])

/-- The speaker display-name list (lines 294-307): each speaker contributes its
space-joined name parts; speakers with no usable parts are skipped. -/
def speakerNames (sps : List Speaker) : List Str :=
  sps.filterMap fun sp =>
    let parts := namePartsOf sp
    if parts.isEmpty then none else some (List.intercalate (" ".toList) parts)

/-- Characters removed by the final sanitization (line 329): the characters
Windows forbids in file names. -/
def isInvalidFsChar (c : Char) : Bool :=
  c == '<' || c == '>' || c == ':' || c == '"' || c == '/' || c == '\\' ||
    c == '|' || c == '?' || c == '*'

/-- file_renamer.generate_new_filename (lines 281-331), speakers-array format
(the legacy format is the same computation on a one-element speaker list). -/
def generate_new_filename (talk : Talk) (year : Nat) (extension : Str) : Str :=
  let names := speakerNames talk.speakers
  let speaker_name :=
    if names.isEmpty then "Unknown Speaker".toList
    else List.intercalate (" & ".toList) names
  let newFilename :=
    talk.talk_title ++ " — ".toList ++ speaker_name ++ " (PyBay ".toList ++
      natRepr year ++ ").".toList ++ extension
  newFilename.filter fun c => !isInvalidFsChar c

/-- Restatement of the Filename Generator from the specification wording, for
the refinement comparison with `generate_new_filename`: per-speaker display
names join the non-empty firstname and lastname with a space, omitting a
lastname equal to the sentinel `.`; speakers contributing no non-empty parts
are skipped; display names are joined with ` & `; an empty resulting list is
replaced by the literal `Unknown Speaker`; the final string is
`{title} — {names} (PyBay {year}).{ext}` with the characters
`< > : " / \ | ? *` removed. -/
def generate_filename_spec (talk : Talk) (year : Nat) (extension : Str) : Str :=
  let display : Speaker → Option Str := fun sp =>
    if sp.firstname ≠ [] then
      if sp.lastname ≠ [] ∧ sp.lastname ≠ ['.'] then
        some (sp.firstname ++ " ".toList ++ sp.lastname)
      else some sp.firstname
    else
      if sp.lastname ≠ [] ∧ sp.lastname ≠ ['.'] then some sp.lastname
      else none
  let names := talk.speakers.filterMap display
  let joined :=
    if names = [] then "Unknown Speaker".toList
    else List.intercalate (" & ".toList) names
  (talk.talk_title ++ " — ".toList ++ joined ++ " (PyBay ".toList ++
      natRepr year ++ ").".toList ++ extension).filter fun c => !isInvalidFsChar c

/-- Python dict insertion `m[k] = v` on an insertion-ordered map: overwrite in
place when the key exists, append otherwise. -/
def dictInsert (m : List (Str × Str)) (k v : Str) : List (Str × Str) :=
  if m.any fun p => p.1 == k then m.map fun p => if p.1 == k then (k, v) else p
  else m ++ [(k, v)]

/-- The review marker prepended to files that matched no talk (line 394). -/
def reviewMark : Str := "![REVIEW_NEEDED]_".toList

/-- The pre-filter of create_rename_mapping_from_json (line 357): drop files
starting with an underscore or an exclamation mark, and files containing the
publication em-dash separator. -/
def filterProcessable (video_files : List Str) : List Str :=
  video_files.filter fun v =>
    !(v.head? == some '_' || v.head? == some '!' || strContains v (" — ".toList))

/-- file_renamer.create_rename_mapping_from_json (lines 334-403). The directory
glob is input-output; `video_files` stands for the names it listed. Returns the
rename map (in Python dict insertion order), the titles of talks with no video,
and the files that matched no talk (each of which, unless already marked, is
also mapped to its review-marked name). -/
def create_rename_mapping_from_json (talks : List Talk) (video_files : List Str)
    (year : Nat) : List (Str × Str) × List Str × List Str :=
  let files := filterProcessable video_files
  let st := talks.foldl
    (fun (st : List (Str × Str) × List Str × List Str) talk =>
      match find_video_for_talk talk files with
      | some v =>
        let tokens := extract_tokens_from_filename v
        (dictInsert st.1 v (generate_new_filename talk year tokens.extension),
          st.2.1 ++ [v], st.2.2)
      | none => (st.1, st.2.1, st.2.2 ++ [talk.talk_title]))
    ([], [], [])
  let unmatched := files.filter fun v => !st.2.1.contains v
  let rename_map := unmatched.foldl
    (fun m v => if reviewMark.isPrefixOf v then m else dictInsert m v (reviewMark ++ v))
    st.1
  (rename_map, st.2.2, unmatched)

/-- The fields of the pyvideo Talk dataclass read or written by
match_speaker_with_fuzzy_matching; every other field passes through
unchanged. -/
structure PVTalk where
  title : Str
  speakers : List Str
deriving DecidableEq

/-- A scraped-catalog entry: the clean title and speaker names stored under a
normalized-title key. -/
structure MetaEntry where
  title : Str
  speakers : List Str
deriving DecidableEq

/-- One attempt of `\s*\(pybay \d{4}\)` (under `re.IGNORECASE`) at the current
position: on success, return the input after the match. -/
def pybayParenAt (s : Str) : Option Str :=
  let r := skipWs s
  if ciPrefix ("(pybay ".toList) r then
    let r2 := r.drop 7
    if (r2.take 4).length = 4 && (r2.take 4).all Char.isDigit &&
        (r2.drop 4).head? == some ')' then
      some (r2.drop 5)
    else none
  else none

/-- re.sub of `\s*\(pybay \d{4}\)` with the empty string (pyvideo_converter.py
line 363): scan left to right, removing each non-overlapping match. The fuel is
the input length; every match consumes at least one character. -/
def stripPybayParenAux : Nat → Str → Str
  | _, [] => []
  | 0, s => s
  | fuel + 1, c :: rest =>
    match pybayParenAt (c :: rest) with
    | some r => stripPybayParenAux fuel r
    | none => c :: stripPybayParenAux fuel rest

def stripPybayParen (s : Str) : Str := stripPybayParenAux s.length s

/-- The dash class `[—–-]` of the suffix-stripping pattern: em dash, en dash,
hyphen. -/
def isTitleDash (c : Char) : Bool := c == '—' || c == '–' || c == '-'

/-- The `$` anchor: end of input, or just before a trailing newline. -/
def dollarAt (s : Str) (p : Nat) : Bool :=
  p == s.length || (p + 1 == s.length && s.getD p ' ' == '\n')

/-- Attempt `\s*[—–-]\s*.+$` at the current position, trying choices in Python
backtracking order (all three quantifiers greedy, longest first); returns the
match length. -/
def dashSuffixAt (s : Str) : Option Nat :=
  (descRange (wsRun s)).findSome? fun j =>
    match s.drop j with
    | d :: rest =>
      if isTitleDash d then
        (descRange (wsRun rest)).findSome? fun j2 =>
          let t := rest.drop j2
          ((descRange t.length).findSome? fun k =>
            if 1 ≤ k ∧ k ≤ t.length ∧ ((t.take k).all fun c => c != '\n') ∧
                dollarAt t k = true then
              some k
            else none).map fun k => j + 1 + j2 + k
      else none
    | [] => none

/-- re.sub of `\s*[—–-]\s*.+$` with the empty string (line 364): remove the
leftmost match, continuing after the removed span. -/
def stripDashSuffixAux : Nat → Str → Str
  | _, [] => []
  | 0, s => s
  | fuel + 1, c :: rest =>
    match dashSuffixAt (c :: rest) with
    | some len => stripDashSuffixAux fuel ((c :: rest).drop len)
    | none => c :: stripDashSuffixAux fuel rest

def stripDashSuffix (s : Str) : Str := stripDashSuffixAux s.length s

/-- The YouTube-title normalization of match_speaker_with_fuzzy_matching
(lines 361-365): lowercase and strip, drop every `(pybay YYYY)` parenthetical,
drop a trailing dash-separated speaker suffix, strip again. -/
def normalizeYtTitle (t : Str) : Str :=
  strip (stripDashSuffix (stripPybayParen (strip (lowerStr t))))

/-- Options for `"?` (greedy: consume the quote first when present). -/
def qOpts (s : Str) : List Str :=
  if s.head? == some '"' then [s.drop 1, s] else [s]

/-- The literal `\(PyBay \d{4}\)` preceded by `\s*` (case-sensitive here). -/
def checkPyBayTail (s : Str) : Bool :=
  let r := skipWs s
  ("(PyBay ".toList).isPrefixOf r &&
    (let r2 := r.drop 7
     (r2.take 4).length = 4 && (r2.take 4).all Char.isDigit &&
       (r2.drop 4).head? == some ')')

/-- The lazy capture of `(.+?)\s*\(PyBay \d{4}\)`. -/
def lazyCapPyBay (accRev : Str) : Str → Option Str
  | [] => none
  | c :: rest =>
    if c = '\n' then none
    else if checkPyBayTail rest then some (c :: accRev).reverse
    else lazyCapPyBay (c :: accRev) rest

/-- The tail `\s*(.+?)\s*\(PyBay \d{4}\)` of the first alternative: greedy
`\s*` (longest first), then the lazy capture. -/
def afterSepA (s : Str) : Option Str :=
  (descRange (wsRun s)).findSome? fun j => lazyCapPyBay [] (s.drop j)

/-- The separator alternation `(?:—|—|-|by)` of the first alternative, tried in
source order (the em dash appears twice in the source pattern). -/
def sepA (s : Str) : Option Str :=
  ["—", "—", "-", "by"].findSome? fun sep =>
    if (sep.toList).isPrefixOf s then some (s.drop sep.toList.length) else none

/-- The continuation `"?\s*(?:—|—|-|by)\s*(.+?)\s*\(PyBay \d{4}\)` after the
first lazy capture of alternative A. -/
def contA (s : Str) : Option Str :=
  (qOpts s).findSome? fun s1 =>
    match sepA (skipWs s1) with
    | some s2 => afterSepA s2
    | none => none

/-- The first lazy capture of alternative A, paired with the capture of its
continuation. -/
def lazyCapA (accRev : Str) : Str → Option (Str × Str)
  | [] => none
  | c :: rest =>
    if c = '\n' then none
    else
      match contA rest with
      | some g2 => some ((c :: accRev).reverse, g2)
      | none => lazyCapA (c :: accRev) rest

/-- Alternative A of QUOTED_TITLE_RE:
`"?(.+?)"?\s*(?:—|—|-|by)\s*(.+?)\s*\(PyBay \d{4}\)`. -/
def branchA (s : Str) : Option (Str × Str) :=
  (qOpts s).findSome? fun s1 => lazyCapA [] s1

/-- The character class `[\w\s"\',\-]` of alternative B. -/
def isClassB (c : Char) : Bool :=
  pyIsWord c || pyIsSpace c || c == '"' || c == '\'' || c == ',' || c == '-'

/-- The tail `\s*([\w\s"\',\-]+)` of alternative B: greedy `\s*` first, then
the greedy class capture (which may itself begin with whitespace when the
greedy `\s*` backtracks). -/
def afterSepB (s : Str) : Option Str :=
  (descRange (wsRun s)).findSome? fun j =>
    let t := (s.drop j).takeWhile isClassB
    if t.isEmpty then none else some t

/-- The continuation `"?\s*(?:-|by)\s*([\w\s"\',\-]+)` after the greedy capture
of alternative B. -/
def contB (s : Str) : Option Str :=
  (qOpts s).findSome? fun s1 =>
    (["-", "by"].findSome? fun sep =>
      if (sep.toList).isPrefixOf (skipWs s1) then
        some ((skipWs s1).drop sep.toList.length)
      else none).bind afterSepB

/-- Alternative B of QUOTED_TITLE_RE: `"?(.+)"?\s*(?:-|by)\s*([\w\s"\',\-]+)`,
with a greedy first capture (longest non-newline run first). -/
def branchB (s : Str) : Option (Str × Str) :=
  (qOpts s).findSome? fun s1 =>
    (descRange ((s1.takeWhile fun c => c != '\n').length)).findSome? fun k =>
      if 1 ≤ k then (contB (s1.drop k)).map fun g4 => (s1.take k, g4)
      else none

/-- The four groups of QUOTED_TITLE_RE when it matches at the current position:
alternative A fills groups one and two, alternative B groups three and four. -/
def quotedTitleAt (s : Str) :
    Option (Option Str × Option Str × Option Str × Option Str) :=
  match branchA s with
  | some g => some (some g.1, some g.2, none, none)
  | none =>
    match branchB s with
    | some g => some (none, none, some g.1, some g.2)
    | none => none

/-- re.search for QUOTED_TITLE_RE (pyvideo_converter.py line 119): leftmost
start position wins; at each position alternative A is tried before B. -/
def quotedTitleSearch : Str → Option (Option Str × Option Str × Option Str × Option Str)
  | [] => quotedTitleAt []
  | c :: rest =>
    match quotedTitleAt (c :: rest) with
    | some gs => some gs
    | none => quotedTitleSearch rest

/-- Truthiness of an optional captured group in Python: not `None` and not
empty. -/
def groupTruthy (g : Option Str) : Bool :=
  match g with
  | some a => !a.isEmpty
  | none => false

/-- Python `speaker.split(",")` followed by stripping each piece
(line 409). -/
def splitSpeakers (s : Str) : List Str :=
  (List.splitOn ',' s).map strip

/-- The regex fallback of match_speaker_with_fuzzy_matching (lines 395-415):
on a QUOTED_TITLE_RE match with a truthy group pair, the stripped title
replaces the talk title and the comma-separated speakers are appended;
otherwise the talk is returned unchanged with the review flag set. -/
def regexFallbackStep (talk : PVTalk) : PVTalk × Bool :=
  match quotedTitleSearch talk.title with
  | some gs =>
    if groupTruthy gs.1 && groupTruthy gs.2.1 then
      ({ talk with title := strip (gs.1.getD []),
                   speakers := talk.speakers ++ splitSpeakers (gs.2.1.getD []) }, false)
    else if groupTruthy gs.2.2.1 && groupTruthy gs.2.2.2 then
      ({ talk with title := strip (gs.2.2.1.getD []),
                   speakers := talk.speakers ++ splitSpeakers (gs.2.2.2.getD []) }, false)
    else (talk, true)
  | none => (talk, true)

/-- The body of the fuzzy-scoring loop (lines 376-380): score one catalog entry
and keep it when it strictly beats the best score so far. The partial
similarity scorer of the external rapidfuzz library is abstracted as the
`scoreFn` argument (a percentage, possibly fractional). -/
def bestStep (scoreFn : Str → Str → ℚ) (normTitle : Str)
    (acc : ℚ × Option MetaEntry) (kv : Str × MetaEntry) : ℚ × Option MetaEntry :=
  let score := scoreFn normTitle kv.1
  if acc.1 < score then (score, some kv.2) else acc

/-- The fuzzy selection itself (lines 367-387): fold with `bestStep`, then keep
the entry only when the best score reaches 95; an empty catalog dict skips the
pass entirely. -/
def fuzzyMetadataMatch (scoreFn : Str → Str → ℚ) (normTitle : Str)
    (catalog : List (Str × MetaEntry)) : Option MetaEntry :=
  if catalog.isEmpty then none
  else
    let best := catalog.foldl (bestStep scoreFn normTitle) (0, none)
    if 95 ≤ best.1 then best.2 else none

/-- pyvideo_converter.match_speaker_with_fuzzy_matching (lines 350-415):
normalize the YouTube title, try the fuzzy catalog pass, and fall back to the
QUOTED_TITLE_RE parse; the Boolean is the needs-manual-review flag. -/
def match_speaker_with_fuzzy_matching (scoreFn : Str → Str → ℚ) (talk : PVTalk)
    (catalog : List (Str × MetaEntry)) : PVTalk × Bool :=
  match fuzzyMetadataMatch scoreFn (normalizeYtTitle talk.title) catalog with
  | some m => ({ talk with title := m.title, speakers := m.speakers }, false)
  | none => regexFallbackStep talk

/-! Helper lemmas shared by the claim theorems. -/

theorem isDigit_bounds {c : Char} (h : c.isDigit = true) :
    48 ≤ c.toNat ∧ c.toNat ≤ 57 := by
  simp [Char.isDigit] at h
  exact ⟨h.1, h.2⟩

theorem foldl_digits_lt (ds : Str) :
    ∀ acc : Nat, (∀ c ∈ ds, c.isDigit = true) →
      ds.foldl (fun n c => 10 * n + (c.toNat - 48)) acc < (acc + 1) * 10 ^ ds.length := by
  induction ds with
  | nil => intro acc _; simp
  | cons c t ih =>
    intro acc h
    have hc := isDigit_bounds (h c (List.mem_cons_self c t))
    have ht : ∀ x ∈ t, x.isDigit = true := fun x hx => h x (List.mem_cons_of_mem c hx)
    have hrec := ih (10 * acc + (c.toNat - 48)) ht
    have hstep : (10 * acc + (c.toNat - 48) + 1) * 10 ^ t.length ≤
        (acc + 1) * 10 ^ (t.length + 1) := by
      have hle : 10 * acc + (c.toNat - 48) + 1 ≤ (acc + 1) * 10 := by omega
      calc (10 * acc + (c.toNat - 48) + 1) * 10 ^ t.length
          ≤ ((acc + 1) * 10) * 10 ^ t.length := Nat.mul_le_mul_right _ hle
        _ = (acc + 1) * 10 ^ (t.length + 1) := by ring
    simp only [List.foldl_cons, List.length_cons]
    exact lt_of_lt_of_le hrec hstep

theorem natOfDigits_lt {ds : Str} (h : ∀ c ∈ ds, c.isDigit = true) :
    natOfDigits ds < 10 ^ ds.length := by
  have := foldl_digits_lt ds 0 h
  simpa [natOfDigits] using this

theorem natOfDigits_lt_100 {ds : Str} (h : ∀ c ∈ ds, c.isDigit = true)
    (hl : ds.length ≤ 2) : natOfDigits ds < 100 := by
  have h1 := natOfDigits_lt h
  have h2 : 10 ^ ds.length ≤ 10 ^ 2 := Nat.pow_le_pow_right (by norm_num) hl
  omega

theorem parseHourMinute_bounds (digits : Str) (b : Bool)
    (h : ∀ c ∈ digits, c.isDigit = true) :
    (parseHourMinute digits b).1 < 100 ∧ (parseHourMinute digits b).2 < 100 := by
  have htake : ∀ n : Nat, ∀ c ∈ digits.take n, c.isDigit = true :=
    fun n c hc => h c (List.mem_of_mem_take hc)
  have hdrop : ∀ n : Nat, ∀ c ∈ digits.drop n, c.isDigit = true :=
    fun n c hc => h c (List.mem_of_mem_drop hc)
  have htl : ∀ n : Nat, (digits.take n).length ≤ n := by
    intro n; simp [List.length_take]
  unfold parseHourMinute
  have t2 : natOfDigits (digits.take 2) < 100 :=
    natOfDigits_lt_100 (htake 2) (le_trans (htl 2) (by norm_num))
  have t1 : natOfDigits (digits.take 1) < 100 :=
    natOfDigits_lt_100 (htake 1) (le_trans (htl 1) (by norm_num))
  have tfull : digits.length ≤ 2 → natOfDigits digits < 100 := fun hl =>
    natOfDigits_lt_100 h hl
  split_ifs with h4 h3 hc hf
  · exact ⟨t2, natOfDigits_lt_100 (hdrop 2) (by simp [List.length_drop, h4])⟩
  · exact ⟨t1, natOfDigits_lt_100 (hdrop 1) (by simp [List.length_drop, h3])⟩
  · exact ⟨t1, natOfDigits_lt_100 (hdrop 1) (by simp [List.length_drop, h3])⟩
  · exact ⟨t1, natOfDigits_lt_100 (hdrop 1) (by simp [List.length_drop, h3])⟩
  · exact ⟨tfull (by omega), by norm_num⟩
  · exact ⟨tfull (by omega), by norm_num⟩
  · exact ⟨t2, by norm_num⟩

theorem adjustHour_lt (hour : Nat) (ap : Option Bool) (h : hour < 100) :
    adjustHour ap hour < 112 := by
  rcases ap with _ | b
  · simp [adjustHour]; omega
  · cases b <;> simp [adjustHour] <;> split_ifs <;> omega

theorem pad2_facts : ∀ n < 1000,
    (∀ c ∈ pad2 n, c.isDigit = true) ∧
      (pad2 n).length = (if n < 100 then 2 else 3) := by decide

theorem find?_append_all_false {p : Str → Bool} (pre l : List Str)
    (h : ∀ u ∈ pre, p u = false) : List.find? p (pre ++ l) = List.find? p l := by
  induction pre with
  | nil => rfl
  | cons a t ih =>
    have ha := h a (List.mem_cons_self a t)
    rw [List.cons_append, List.find?_cons_of_neg _ (by simp [ha])]
    exact ih fun u hu => h u (List.mem_cons_of_mem a hu)

theorem intercalate_single (s a : Str) : List.intercalate s [a] = a := by
  simp [List.intercalate, List.intersperse]

theorem intercalate_pair (s a b : Str) : List.intercalate s [a, b] = a ++ s ++ b := by
  simp [List.intercalate, List.intersperse]

theorem speakerNames_eq_display (sps : List Speaker) :
    speakerNames sps = sps.filterMap fun sp =>
      if sp.firstname ≠ [] then
        if sp.lastname ≠ [] ∧ sp.lastname ≠ ['.'] then
          some (sp.firstname ++ " ".toList ++ sp.lastname)
        else some sp.firstname
      else
        if sp.lastname ≠ [] ∧ sp.lastname ≠ ['.'] then some sp.lastname
        else none := by
  induction sps with
  | nil => rfl
  | cons sp t ih =>
    simp only [speakerNames, List.filterMap_cons] at *
    rw [← ih]
    by_cases hf : sp.firstname = [] <;> by_cases hl : sp.lastname = [] <;>
      by_cases hd : sp.lastname = ['.'] <;>
      simp [namePartsOf, hf, hl, hd, intercalate_single, intercalate_pair, speakerNames]

theorem bestStep_fst_lt_iff (f : Str → Str → ℚ) (nt : Str) (l : List (Str × MetaEntry)) :
    ∀ (acc : ℚ × Option MetaEntry) (q : ℚ),
      (l.foldl (bestStep f nt) acc).1 < q ↔ acc.1 < q ∧ ∀ kv ∈ l, f nt kv.1 < q := by
  induction l with
  | nil => simp
  | cons kv t ih =>
    intro acc q
    rw [List.foldl_cons, ih]
    unfold bestStep
    simp only []
    split
    · rename_i hlt
      constructor
      · rintro ⟨hq, hall⟩
        exact ⟨lt_trans hlt hq, by
          intro x hx
          rcases List.mem_cons.mp hx with rfl | hx
          · exact hq
          · exact hall x hx⟩
      · rintro ⟨hq, hall⟩
        exact ⟨hall kv (List.mem_cons_self kv t),
          fun x hx => hall x (List.mem_cons_of_mem kv hx)⟩
    · rename_i hnlt
      push_neg at hnlt
      constructor
      · rintro ⟨hq, hall⟩
        refine ⟨hq, ?_⟩
        intro x hx
        rcases List.mem_cons.mp hx with rfl | hx
        · exact lt_of_le_of_lt hnlt hq
        · exact hall x hx
      · rintro ⟨hq, hall⟩
        exact ⟨hq, fun x hx => hall x (List.mem_cons_of_mem kv hx)⟩

theorem foldl_bestStep_snd_none (f : Str → Str → ℚ) (nt : Str) (l : List (Str × MetaEntry)) :
    ∀ acc : ℚ × Option MetaEntry, (l.foldl (bestStep f nt) acc).2 = none →
      (l.foldl (bestStep f nt) acc).1 = acc.1 ∧ acc.2 = none := by
  induction l with
  | nil => intro acc h; exact ⟨rfl, h⟩
  | cons kv t ih =>
    intro acc h
    rw [List.foldl_cons] at h ⊢
    by_cases hlt : acc.1 < f nt kv.1
    · have hstep : bestStep f nt acc kv = (f nt kv.1, some kv.2) := by
        unfold bestStep; simp [hlt]
      rw [hstep] at h
      have := ih _ h
      simp at this
    · have hstep : bestStep f nt acc kv = acc := by
        unfold bestStep; simp [hlt]
      rw [hstep] at h ⊢
      exact ih _ h

theorem foldl_bestStep_snd_mem (f : Str → Str → ℚ) (nt : Str) (l : List (Str × MetaEntry)) :
    ∀ (acc : ℚ × Option MetaEntry) (m : MetaEntry),
      (l.foldl (bestStep f nt) acc).2 = some m →
      acc.2 = some m ∨ ∃ kv ∈ l, kv.2 = m := by
  induction l with
  | nil => intro acc m h; exact Or.inl h
  | cons kv t ih =>
    intro acc m h
    rw [List.foldl_cons] at h
    by_cases hlt : acc.1 < f nt kv.1
    · have hstep : bestStep f nt acc kv = (f nt kv.1, some kv.2) := by
        unfold bestStep; simp [hlt]
      rw [hstep] at h
      rcases ih _ m h with h2 | ⟨x, hx, rfl⟩
      · simp at h2
        exact Or.inr ⟨kv, List.mem_cons_self kv t, h2⟩
      · exact Or.inr ⟨x, List.mem_cons_of_mem kv hx, rfl⟩
    · have hstep : bestStep f nt acc kv = acc := by
        unfold bestStep; simp [hlt]
      rw [hstep] at h
      rcases ih _ m h with h2 | ⟨x, hx, rfl⟩
      · exact Or.inl h2
      · exact Or.inr ⟨x, List.mem_cons_of_mem kv hx, rfl⟩

theorem regexFallback_of_flag (t : PVTalk) (h : (regexFallbackStep t).2 = true) :
    regexFallbackStep t = (t, true) := by
  unfold regexFallbackStep at h ⊢
  split at h
  · split at h
    · simp at h
    · split at h
      · simp at h
      · rename_i h1 h2
        simp [h1, h2]
  · rfl

/-! The claim theorems. -/

/-- C1: any candidate returned by find_video_for_talk has an extractable time
token whose 24-hour normalization equals that of the start time of the talk,
and a present non-empty room token equals the room of the talk
case-insensitively; a candidate without an extractable time token is therefore
never returned, while a candidate with no room token may still be returned
(witnessed by the closing conjunct, on a hyphen-free filename). -/
theorem C1_returned_candidate_time_room (talk : Talk) (files : List Str) (v : Str)
    (h : find_video_for_talk talk files = some v) :
    (∃ t, (extract_tokens_from_filename v).time = some t ∧
        normalize_time_to_24h t = normalize_time_to_24h talk.start_time) ∧
    (∀ r, (extract_tokens_from_filename v).room = some r → r ≠ [] →
        lowerStr r = lowerStr talk.room) ∧
    ((extract_tokens_from_filename ("Robertson 1000 talk.mp4".toList)).room = none ∧
      find_video_for_talk
          { room := "Robertson".toList, start_time := "10:00 am".toList,
            talk_title := "T".toList, speakers := [] }
          ["Robertson 1000 talk.mp4".toList] =
        some ("Robertson 1000 talk.mp4".toList)) := by
  have ha := List.find?_some h
  simp only [acceptsCandidate] at ha
  split at ha
  · exact absurd ha (by simp)
  · split at ha
    · exact absurd ha (by simp)
    · rename_i hskip hroom
      split at ha
      · exact absurd ha (by simp)
      · rename_i t heq
        split at ha
        · exact absurd ha (by simp)
        · rename_i hne
          refine ⟨⟨t, heq, ?_⟩, ?_, by decide⟩
          · simpa using hne
          · intro r hr hrne
            have hroomF : roomRejects (lowerStr talk.room)
                (extract_tokens_from_filename v) = false := by
              exact Bool.not_eq_true _ ▸ by simpa using hroom
            rw [roomRejects, hr] at hroomF
            simp at hroomF
            exact hroomF hrne

/-- C1 witness: the theorem applied to the spec example, a Robertson 10:00 am
talk matched to `Robertson - 1000 - Laffra - PyScript Talk.mp4`. -/
theorem C1_returned_candidate_time_room_witness :
    find_video_for_talk
        { room := "Robertson".toList, start_time := "10:00 am".toList,
          talk_title := "T".toList,
          speakers := [{ firstname := "Chris".toList, lastname := "Laffra".toList }] }
        ["Robertson - 1000 - Laffra - PyScript Talk.mp4".toList] =
      some ("Robertson - 1000 - Laffra - PyScript Talk.mp4".toList) ∧
    (∃ t, (extract_tokens_from_filename
        ("Robertson - 1000 - Laffra - PyScript Talk.mp4".toList)).time = some t ∧
      normalize_time_to_24h t = normalize_time_to_24h ("10:00 am".toList)) :=
  ⟨by decide,
    (C1_returned_candidate_time_room
      { room := "Robertson".toList, start_time := "10:00 am".toList,
        talk_title := "T".toList,
        speakers := [{ firstname := "Chris".toList, lastname := "Laffra".toList }] }
      ["Robertson - 1000 - Laffra - PyScript Talk.mp4".toList]
      ("Robertson - 1000 - Laffra - PyScript Talk.mp4".toList) (by decide)).1⟩

/-- C2 counterexample: a candidate that begins with the reserved review-needed
prefix `![REVIEW_NEEDED]_` but contains no hyphen and no em dash is returned
by find_video_for_talk (its skip test only checks a leading underscore and the
em-dash separator), so the claim as stated about find_video_for_talk is
false. -/
theorem C2_counterexample_review_marked_returned :
    reviewMark.isPrefixOf ("![REVIEW_NEEDED]_Robertson 1000 Laffra Talk.mp4".toList) = true ∧
    find_video_for_talk
        { room := "Robertson".toList, start_time := "10:00 am".toList,
          talk_title := "T".toList,
          speakers := [{ firstname := "Chris".toList, lastname := "Laffra".toList }] }
        ["![REVIEW_NEEDED]_Robertson 1000 Laffra Talk.mp4".toList] =
      some ("![REVIEW_NEEDED]_Robertson 1000 Laffra Talk.mp4".toList) := by decide

/-- C2 amended: find_video_for_talk itself never returns a candidate whose
name starts with an underscore or contains the em-dash separator ` — `; the
review-needed prefix is instead excluded upstream, by the pre-filter of
create_rename_mapping_from_json, which removes names starting with `_` or `!`
and names containing ` — ` before any matching happens. -/
theorem C2_amended_skip_rules :
    (∀ (talk : Talk) (files : List Str) (v : Str),
      find_video_for_talk talk files = some v →
        v.head? ≠ some '_' ∧ strContains v (" — ".toList) = false) ∧
    (∀ (files : List Str) (u : Str), u ∈ filterProcessable files →
      u.head? ≠ some '_' ∧ u.head? ≠ some '!' ∧ strContains u (" — ".toList) = false) := by
  constructor
  · intro talk files v h
    have ha := List.find?_some h
    simp only [acceptsCandidate] at ha
    split at ha
    · exact absurd ha (by simp)
    · rename_i hcond
      simp only [Bool.or_eq_true, beq_iff_eq, not_or, Bool.not_eq_true] at hcond
      exact ⟨hcond.1, hcond.2⟩
  · intro files u hu
    simp only [filterProcessable] at hu
    have hcond := (List.mem_filter.mp hu).2
    simp only [Bool.not_eq_eq_eq_not, Bool.not_true, Bool.or_eq_false_iff,
      beq_eq_false_iff_ne, ne_eq] at hcond
    exact ⟨hcond.1.1, hcond.1.2, hcond.2⟩

/-- C2 amended witness: both parts of the amended claim applied to concrete
inputs. -/
theorem C2_amended_skip_rules_witness :
    (("Robertson - 1000 - Laffra - PyScript Talk.mp4".toList).head? ≠ some '_' ∧
      strContains ("Robertson - 1000 - Laffra - PyScript Talk.mp4".toList)
        (" — ".toList) = false) ∧
    (("a.mp4".toList).head? ≠ some '_' ∧ ("a.mp4".toList).head? ≠ some '!' ∧
      strContains ("a.mp4".toList) (" — ".toList) = false) :=
  ⟨C2_amended_skip_rules.1
      { room := "Robertson".toList, start_time := "10:00 am".toList,
        talk_title := "T".toList, speakers := [] }
      ["Robertson - 1000 - Laffra - PyScript Talk.mp4".toList]
      ("Robertson - 1000 - Laffra - PyScript Talk.mp4".toList) (by decide),
    C2_amended_skip_rules.2
      ["a.mp4".toList, "_b.mp4".toList, "!c.mp4".toList] ("a.mp4".toList) (by decide)⟩

/-- C3: generate_new_filename produces exactly the spec string
`{talk_title} — {joined_speaker_names} (PyBay {year}).{extension}` with the
spec display-name, skipping, `Unknown Speaker` and character-removal rules
(`generate_filename_spec` restates those rules verbatim), and the concrete
spec example evaluates to
`Scaling Open Source — Glyph Lefkowitz (PyBay 2025).mp4`. -/
theorem C3_generate_filename_refines_spec :
    (∀ (talk : Talk) (year : Nat) (ext : Str),
      generate_new_filename talk year ext = generate_filename_spec talk year ext) ∧
    generate_new_filename
        { room := "Robertson".toList, start_time := "10:00 am".toList,
          talk_title := "Scaling Open Source".toList,
          speakers := [{ firstname := "Glyph".toList, lastname := "Lefkowitz".toList }] }
        2025 ("mp4".toList) =
      "Scaling Open Source — Glyph Lefkowitz (PyBay 2025).mp4".toList := by
  constructor
  · intro talk year ext
    simp only [generate_new_filename, generate_filename_spec, speakerNames_eq_display,
      List.isEmpty_iff]
  · decide

/-- C4: with a non-empty catalog, the fuzzy pass selects some catalog entry
exactly when the highest partial-similarity score reaches 95; a selected entry
comes from the catalog and its title and speakers are adopted wholesale; when
every score is below 95, match_speaker_with_fuzzy_matching runs the regex
fallback instead. -/
theorem C4_fuzzy_threshold_gates_adoption (scoreFn : Str → Str → ℚ) (talk : PVTalk)
    (catalog : List (Str × MetaEntry)) (hne : catalog ≠ []) :
    ((fuzzyMetadataMatch scoreFn (normalizeYtTitle talk.title) catalog).isSome ↔
      ∃ kv ∈ catalog, 95 ≤ scoreFn (normalizeYtTitle talk.title) kv.1) ∧
    (∀ m, fuzzyMetadataMatch scoreFn (normalizeYtTitle talk.title) catalog = some m →
      (∃ kv ∈ catalog, kv.2 = m) ∧
        match_speaker_with_fuzzy_matching scoreFn talk catalog =
          ({ talk with title := m.title, speakers := m.speakers }, false)) ∧
    (fuzzyMetadataMatch scoreFn (normalizeYtTitle talk.title) catalog = none →
      match_speaker_with_fuzzy_matching scoreFn talk catalog = regexFallbackStep talk) := by
  set nt := normalizeYtTitle talk.title with hnt
  have hfe : catalog.isEmpty = false := by
    simpa [List.isEmpty_iff] using hne
  have hfuzzy : fuzzyMetadataMatch scoreFn nt catalog =
      (if 95 ≤ (catalog.foldl (bestStep scoreFn nt) (0, none)).1 then
        (catalog.foldl (bestStep scoreFn nt) (0, none)).2 else none) := by
    unfold fuzzyMetadataMatch
    simp [hfe]
  refine ⟨?_, ?_, ?_⟩
  · rw [hfuzzy]
    by_cases hth : 95 ≤ (catalog.foldl (bestStep scoreFn nt) (0, none)).1
    · rw [if_pos hth]
      have hsome : (catalog.foldl (bestStep scoreFn nt) (0, none)).2.isSome := by
        rcases ho : (catalog.foldl (bestStep scoreFn nt) (0, none)).2 with _ | m
        · have := foldl_bestStep_snd_none scoreFn nt catalog (0, none) ho
          rw [this.1] at hth
          norm_num at hth
        · simp
      rw [hsome]
      simp only [true_iff]
      by_contra hnone
      push_neg at hnone
      have hall : ∀ kv ∈ catalog, scoreFn nt kv.1 < 95 := fun kv hkv => hnone kv hkv
      have := (bestStep_fst_lt_iff scoreFn nt catalog (0, none) 95).mpr ⟨by norm_num, hall⟩
      exact absurd hth (not_le.mpr this)
    · rw [if_neg hth]
      simp only [Option.isSome_none, Bool.false_eq_true, false_iff]
      push_neg at hth
      have := (bestStep_fst_lt_iff scoreFn nt catalog (0, none) 95).mp hth
      push_neg
      intro kv hkv
      exact this.2 kv hkv
  · intro m hm
    constructor
    · rw [hfuzzy] at hm
      by_cases hth : 95 ≤ (catalog.foldl (bestStep scoreFn nt) (0, none)).1
      · rw [if_pos hth] at hm
        rcases foldl_bestStep_snd_mem scoreFn nt catalog (0, none) m hm with h2 | h2
        · simp at h2
        · exact h2
      · rw [if_neg hth] at hm
        simp at hm
    · unfold match_speaker_with_fuzzy_matching
      rw [← hnt, hm]
  · intro hm
    unfold match_speaker_with_fuzzy_matching
    rw [← hnt, hm]

/-- C4 witness: the theorem applied to a one-entry catalog with a scorer that
returns 100 everywhere, so the entry is adopted. -/
theorem C4_fuzzy_threshold_gates_adoption_witness :
    ([(("testing tools".toList : Str),
        ({ title := "Testing Tools".toList,
           speakers := ["Zac Hatfield-Dodds".toList] } : MetaEntry))] ≠
      ([] : List (Str × MetaEntry))) ∧
    ((fuzzyMetadataMatch (fun _ _ => (100 : ℚ))
        (normalizeYtTitle ("Testing Tools (PyBay 2025)".toList))
        [("testing tools".toList,
          { title := "Testing Tools".toList,
            speakers := ["Zac Hatfield-Dodds".toList] })]).isSome ↔
      ∃ kv ∈ [(("testing tools".toList : Str),
          ({ title := "Testing Tools".toList,
             speakers := ["Zac Hatfield-Dodds".toList] } : MetaEntry))],
        (95 : ℚ) ≤ 100) :=
  ⟨by decide,
    (C4_fuzzy_threshold_gates_adoption (fun _ _ => (100 : ℚ))
      { title := "Testing Tools (PyBay 2025)".toList, speakers := [] }
      [("testing tools".toList,
        { title := "Testing Tools".toList,
          speakers := ["Zac Hatfield-Dodds".toList] })]
      (by decide)).1⟩

/-- C5 counterexample: `99 pm` contains digits but normalizes to the five-digit
string `11100`, and `25:70` normalizes to the four-digit string `2570`, which
is outside the 0000-2359 range, so the claim as stated (always exactly four
digits forming a key in 0000-2359) is false. -/
theorem C5_counterexample_out_of_range :
    normalize_time_to_24h ("99 pm".toList) = "11100".toList ∧
    (normalize_time_to_24h ("99 pm".toList)).length ≠ 4 ∧
    normalize_time_to_24h ("25:70".toList) = "2570".toList ∧
    ¬ natOfDigits (normalize_time_to_24h ("25:70".toList)) ≤ 2359 := by decide

/-- C5 amended: normalize_time_to_24h returns the empty string exactly when
the input has no digit character; on any input with a digit it terminates and
returns a string of digit characters of length four or five (the zero-padded
hour part can reach three digits, as for `99 pm`), with no guarantee that the
value lies in 0000-2359. -/
theorem C5_amended_digit_shape (s : Str) :
    (normalize_time_to_24h s = [] ↔ ∀ c ∈ s, c.isDigit = false) ∧
    ((∃ c ∈ s, c.isDigit = true) →
      (∀ c ∈ normalize_time_to_24h s, c.isDigit = true) ∧
      ((normalize_time_to_24h s).length = 4 ∨ (normalize_time_to_24h s).length = 5)) := by
  have hdigchars : ∀ c ∈ s.filter Char.isDigit, c.isDigit = true := by
    intro c hc
    exact (List.mem_filter.mp hc).2
  by_cases hempty : (s.filter Char.isDigit).isEmpty
  · have hnil : normalize_time_to_24h s = [] := by
      unfold normalize_time_to_24h
      simp only [hempty, if_true]
    have hfil : s.filter Char.isDigit = [] := by
      simpa [List.isEmpty_iff] using hempty
    constructor
    · simp only [hnil, true_iff]
      intro c hc
      by_contra hcd
      have : c ∈ s.filter Char.isDigit := List.mem_filter.mpr ⟨hc, by simpa using hcd⟩
      simp [hfil] at this
    · rintro ⟨c, hc, hcd⟩
      have : c ∈ s.filter Char.isDigit := List.mem_filter.mpr ⟨hc, hcd⟩
      simp [hfil] at this
  · have hb := parseHourMinute_bounds (s.filter Char.isDigit)
      (s.contains ':') hdigchars
    have hadj := adjustHour_lt
      (parseHourMinute (s.filter Char.isDigit) (s.contains ':')).1
      (amPmOf s) hb.1
    have heq : normalize_time_to_24h s =
        pad2 (adjustHour (amPmOf s)
            (parseHourMinute (s.filter Char.isDigit) (s.contains ':')).1) ++
          pad2 (parseHourMinute (s.filter Char.isDigit) (s.contains ':')).2 := by
      unfold normalize_time_to_24h
      simp [hempty]
    have p1 := pad2_facts (adjustHour (amPmOf s)
      (parseHourMinute (s.filter Char.isDigit) (s.contains ':')).1) (by omega)
    have p2 := pad2_facts
      (parseHourMinute (s.filter Char.isDigit) (s.contains ':')).2 (by omega)
    have hlen : (normalize_time_to_24h s).length = 4 ∨
        (normalize_time_to_24h s).length = 5 := by
      rw [heq, List.length_append, p1.2, p2.2]
      split_ifs <;> simp_all
    constructor
    · constructor
      · intro hn
        rw [hn] at hlen
        simp at hlen
      · intro hall
        exfalso
        have hfil : s.filter Char.isDigit = [] := by
          rw [List.filter_eq_nil_iff]
          intro c hc
          simp [hall c hc]
        simp [hfil] at hempty
    · intro _
      refine ⟨?_, hlen⟩
      intro c hc
      rw [heq] at hc
      rcases List.mem_append.mp hc with h1 | h1
      · exact p1.1 c h1
      · exact p2.1 c h1

/-- C5 amended witness: the amended theorem applied to `2:30 pm`, which has a
digit and normalizes to the four digit characters `1430`. -/
theorem C5_amended_digit_shape_witness :
    (∃ c ∈ ("2:30 pm".toList : Str), c.isDigit = true) ∧
    ((∀ c ∈ normalize_time_to_24h ("2:30 pm".toList), c.isDigit = true) ∧
      ((normalize_time_to_24h ("2:30 pm".toList)).length = 4 ∨
        (normalize_time_to_24h ("2:30 pm".toList)).length = 5)) :=
  ⟨by decide, (C5_amended_digit_shape ("2:30 pm".toList)).2 (by decide)⟩

/-- C6: for every valid 12-hour time `H:MM am/pm` (hour 1-12, minutes 00-59),
normalize_time_to_24h returns the four-digit key whose hour part is obtained
by adding 12 for a pm marker when the hour is not 12 and by mapping hour 12
with an am marker to 00, and whose minute part is the minutes unchanged; in
particular `12:00 pm` gives `1200` and `12:00 am` gives `0000`. -/
theorem C6_valid_12h_normalization (h m : Nat) (pmb : Bool)
    (h1 : 1 ≤ h) (h2 : h ≤ 12) (hm : m ≤ 59) :
    normalize_time_to_24h
        (natRepr h ++ [':'] ++ pad2 m ++ (if pmb then " pm".toList else " am".toList)) =
      pad2 (if pmb then (if h ≠ 12 then h + 12 else h) else (if h = 12 then 0 else h)) ++
        pad2 m ∧
    (if pmb then (if h ≠ 12 then h + 12 else h) else (if h = 12 then 0 else h)) ≤ 23 ∧
    (normalize_time_to_24h
        (natRepr h ++ [':'] ++ pad2 m ++
          (if pmb then " pm".toList else " am".toList))).length = 4 ∧
    normalize_time_to_24h ("12:00 pm".toList) = "1200".toList ∧
    normalize_time_to_24h ("12:00 am".toList) = "0000".toList := by
  have key : ∀ (hf : Fin 13) (mf : Fin 60) (b : Bool), 1 ≤ hf.val →
      (normalize_time_to_24h
          (natRepr hf.val ++ [':'] ++ pad2 mf.val ++
            (if b then " pm".toList else " am".toList)) =
        pad2 (if b then (if hf.val ≠ 12 then hf.val + 12 else hf.val)
              else (if hf.val = 12 then 0 else hf.val)) ++ pad2 mf.val) ∧
      (if b then (if hf.val ≠ 12 then hf.val + 12 else hf.val)
       else (if hf.val = 12 then 0 else hf.val)) ≤ 23 ∧
      (normalize_time_to_24h
          (natRepr hf.val ++ [':'] ++ pad2 mf.val ++
            (if b then " pm".toList else " am".toList))).length = 4 := by decide
  have := key ⟨h, by omega⟩ ⟨m, by omega⟩ pmb h1
  exact ⟨this.1, this.2.1, this.2.2, by decide, by decide⟩

/-- C6 witness: the theorem applied at noon, `12:00 pm`. -/
theorem C6_valid_12h_normalization_witness :
    (1 ≤ 12 ∧ (12 : Nat) ≤ 12 ∧ (0 : Nat) ≤ 59) ∧
    normalize_time_to_24h
        (natRepr 12 ++ [':'] ++ pad2 0 ++ (if true then " pm".toList else " am".toList)) =
      pad2 (if true then (if (12 : Nat) ≠ 12 then 12 + 12 else 12)
            else (if (12 : Nat) = 12 then 0 else 12)) ++ pad2 0 :=
  ⟨⟨by decide, by decide, by decide⟩,
    (C6_valid_12h_normalization 12 0 true (by decide) (by decide) (by decide)).1⟩

/-- C7: a candidate that is not skipped and passes the room and time filters is
accepted whenever it has no usable surname fragment or the talk has no usable
speaker-name data, and find_video_for_talk returns it when every earlier
candidate is rejected. -/
theorem C7_leniency_without_name_data (talk : Talk) (v : Str)
    (hskip : (v.head? == some '_' || strContains v (" — ".toList)) = false)
    (hroom : roomRejects (lowerStr talk.room) (extract_tokens_from_filename v) = false)
    (htime : ∃ t, (extract_tokens_from_filename v).time = some t ∧
        normalize_time_to_24h t = normalize_time_to_24h talk.start_time)
    (hname : lowerStr ((extract_tokens_from_filename v).lastname.getD []) = [] ∨
        ∀ sp ∈ talk.speakers, sp.firstname = [] ∧ sp.lastname = []) :
    acceptsCandidate talk v = true ∧
    ∀ pre rest, (∀ u ∈ pre, acceptsCandidate talk u = false) →
      find_video_for_talk talk (pre ++ v :: rest) = some v := by
  obtain ⟨t, ht, hteq⟩ := htime
  have hacc : acceptsCandidate talk v = true := by
    simp only [acceptsCandidate]
    rw [hskip]
    simp only [Bool.false_eq_true, if_false]
    rw [hroom]
    simp only [Bool.false_eq_true, if_false]
    rw [ht]
    have hbne : (normalize_time_to_24h t != normalize_time_to_24h talk.start_time) = false := by
      simp [hteq]
    simp only [hbne, Bool.false_eq_true, if_false]
    rw [nameVerify]
    rcases hname with hv | hall
    · simp [hv]
    · have hempty : ((talk.speakers.map speakerLower).any fun sp =>
          !sp.firstname.isEmpty || !sp.lastname.isEmpty) = false := by
        simp only [List.any_eq_false]
        intro sp hsp
        rcases List.mem_map.mp hsp with ⟨sp0, hsp0, rfl⟩
        have := hall sp0 hsp0
        simp [speakerLower, lowerStr, this.1, this.2]
      by_cases hv : lowerStr ((extract_tokens_from_filename v).lastname.getD []) = []
      · simp [hv]
      · simp [hv, hempty]
  refine ⟨hacc, ?_⟩
  intro pre rest hpre
  rw [find_video_for_talk, find?_append_all_false pre _ hpre]
  exact List.find?_cons_of_pos _ hacc

/-- C7 witness: a talk with a named speaker still matches a candidate carrying
no surname fragment, placed after one rejected candidate. -/
theorem C7_leniency_without_name_data_witness :
    acceptsCandidate
        { room := "Robertson".toList, start_time := "10:00 am".toList,
          talk_title := "T".toList,
          speakers := [{ firstname := "Chris".toList, lastname := "Laffra".toList }] }
        ("Robertson - 1000 - Some Topic.mp4".toList) = true ∧
    find_video_for_talk
        { room := "Robertson".toList, start_time := "10:00 am".toList,
          talk_title := "T".toList,
          speakers := [{ firstname := "Chris".toList, lastname := "Laffra".toList }] }
        (["Fisher - 1000 - X - Y.mp4".toList] ++
          "Robertson - 1000 - Some Topic.mp4".toList :: []) =
      some ("Robertson - 1000 - Some Topic.mp4".toList) := by
  have := C7_leniency_without_name_data
    { room := "Robertson".toList, start_time := "10:00 am".toList,
      talk_title := "T".toList,
      speakers := [{ firstname := "Chris".toList, lastname := "Laffra".toList }] }
    ("Robertson - 1000 - Some Topic.mp4".toList) (by decide) (by decide)
    ⟨"1000".toList, by decide, by decide⟩ (Or.inl (by decide))
  exact ⟨this.1, this.2 ["Fisher - 1000 - X - Y.mp4".toList] [] (by decide)⟩

/-- C8: tokenizing `Fisher - 1030 - Hatfield-Dodds - Testing Tools.mp4` yields
room `Fisher`, time `1030`, lastname `Hatfield-Dodds` (the internal hyphen is
kept), and extension `mp4`. -/
theorem C8_tokenize_hyphenated_surname :
    (extract_tokens_from_filename
        ("Fisher - 1030 - Hatfield-Dodds - Testing Tools.mp4".toList)).room =
      some ("Fisher".toList) ∧
    (extract_tokens_from_filename
        ("Fisher - 1030 - Hatfield-Dodds - Testing Tools.mp4".toList)).time =
      some ("1030".toList) ∧
    (extract_tokens_from_filename
        ("Fisher - 1030 - Hatfield-Dodds - Testing Tools.mp4".toList)).lastname =
      some ("Hatfield-Dodds".toList) ∧
    (extract_tokens_from_filename
        ("Fisher - 1030 - Hatfield-Dodds - Testing Tools.mp4".toList)).extension =
      "mp4".toList := by decide

/-- C9: for a talk whose speaker list is empty, when the fuzzy pass selects no
entry and the regex fallback does not succeed, match_speaker_with_fuzzy_matching
returns the talk with title unchanged and speakers still empty, with the
manual-review flag set (the function is total, so no exception path exists). -/
theorem C9_unmatched_talk_returned_unchanged (scoreFn : Str → Str → ℚ)
    (talk : PVTalk) (catalog : List (Str × MetaEntry))
    (hsp : talk.speakers = [])
    (hfuzzy : fuzzyMetadataMatch scoreFn (normalizeYtTitle talk.title) catalog = none)
    (hfall : (regexFallbackStep talk).2 = true) :
    match_speaker_with_fuzzy_matching scoreFn talk catalog = (talk, true) ∧
    (match_speaker_with_fuzzy_matching scoreFn talk catalog).1.title = talk.title ∧
    (match_speaker_with_fuzzy_matching scoreFn talk catalog).1.speakers = [] := by
  have hmain : match_speaker_with_fuzzy_matching scoreFn talk catalog = (talk, true) := by
    unfold match_speaker_with_fuzzy_matching
    rw [hfuzzy]
    exact regexFallback_of_flag talk hfall
  exact ⟨hmain, by rw [hmain], by rw [hmain]; exact hsp⟩

/-- C9 witness: the spec example `Welcome Remarks` with an empty catalog is
flagged for manual review with an empty speaker list. -/
theorem C9_unmatched_talk_returned_unchanged_witness :
    match_speaker_with_fuzzy_matching (fun _ _ => (0 : ℚ))
        { title := "Welcome Remarks".toList, speakers := [] } [] =
      ({ title := "Welcome Remarks".toList, speakers := [] }, true) :=
  (C9_unmatched_talk_returned_unchanged (fun _ _ => (0 : ℚ))
    { title := "Welcome Remarks".toList, speakers := [] } []
    (by decide) (by decide) (by decide)).1

/-- C10: find_video_for_talk depends only on its arguments and
create_rename_mapping_from_json hands every talk the same filtered candidate
list, so two distinct talks sharing a room and normalized start time both
match the same candidate within one pass, and the later generated filename
silently overwrites the earlier entry for that file in the returned map. -/
theorem C10_same_candidate_double_booked :
    find_video_for_talk
        { room := "Robertson".toList, start_time := "10:00 am".toList,
          talk_title := "Talk A".toList, speakers := [] }
        ["Robertson - 1000 - Some Topic.mp4".toList] =
      some ("Robertson - 1000 - Some Topic.mp4".toList) ∧
    find_video_for_talk
        { room := "Robertson".toList, start_time := "10:00 am".toList,
          talk_title := "Talk B".toList, speakers := [] }
        ["Robertson - 1000 - Some Topic.mp4".toList] =
      some ("Robertson - 1000 - Some Topic.mp4".toList) ∧
    (create_rename_mapping_from_json
        [{ room := "Robertson".toList, start_time := "10:00 am".toList,
           talk_title := "Talk A".toList, speakers := [] },
         { room := "Robertson".toList, start_time := "10:00 am".toList,
           talk_title := "Talk B".toList, speakers := [] }]
        ["Robertson - 1000 - Some Topic.mp4".toList] 2025).1 =
      [("Robertson - 1000 - Some Topic.mp4".toList,
        "Talk B — Unknown Speaker (PyBay 2025).mp4".toList)] ∧
    generate_new_filename
        { room := "Robertson".toList, start_time := "10:00 am".toList,
          talk_title := "Talk A".toList, speakers := [] } 2025 ("mp4".toList) ≠
      generate_new_filename
        { room := "Robertson".toList, start_time := "10:00 am".toList,
          talk_title := "Talk B".toList, speakers := [] } 2025 ("mp4".toList) := by decide

end PyBayVideo

